import Mathlib

/-!
Verification of the file organizer (`organize.py`).

The development shallowly embeds the two components of the program:

* `load_rules` / `get_file_folder` — the rule table: an insertion-ordered
  Python `dict` is modelled as an association list with update-in-place
  insertion (`dictInsert`) and first-match lookup (`dictGet`), which is
  observationally exact for Python dicts.
* `organize_files` — the directory pass: the filesystem visible to the
  code is the target directory's immediate children (`FS`), a path is
  `absent`, a plain `file`, or a `dir` holding such a listing
  (`PathState`).  Outcomes are the log lines the code emits per entry.
  Failures of `shutil.move` (permission denial, collision inside the
  destination folder, I/O error, vanished source) are abstracted by a
  fault oracle `fault : String → Option String` giving, per entry name,
  the error detail when the move call raises.
-/

set_option autoImplicit false

namespace Organizer

/-- Python `str.lower()` on the characters of a string (exact on the ASCII
extension strings the program handles). -/
def lowerStr (s : String) : String :=
  String.mk (s.data.map Char.toLower)

/-- Python `dict` insertion on an association list: an existing key is
overwritten in place, a new key is appended at the end. -/
def dictInsert (d : List (String × String)) (k v : String) : List (String × String) :=
  match d with
  | [] => [(k, v)]
  | (k', v') :: rest => if k' = k then (k, v) :: rest else (k', v') :: dictInsert rest k v

/-- Python `dict.get`: the value stored under `k`, or `none`. -/
def dictGet (d : List (String × String)) (k : String) : Option String :=
  match d with
  | [] => none
  | (k', v') :: rest => if k' = k then some v' else dictGet rest k

/-- Raw configuration data: the parsed JSON object, an insertion-ordered
mapping from category name to its list of extension strings. -/
abbrev RawConfig := List (String × List String)

/-- Result of opening and parsing the configuration file. -/
inductive LoadResult where
  | missing
  | malformed
  | ok (rules : RawConfig)

/-- The inversion loop of `load_rules` (organize.py lines 26–30): for every
category, for every listed extension, register `ext.lower() ↦ category`,
overwriting any earlier registration of that extension. -/
def invert_rules (rules : RawConfig) : List (String × String) :=
  rules.foldl
    (fun inverted p => p.2.foldl (fun inv ext => dictInsert inv (lowerStr ext) p.1) inverted)
    []

/-- `load_rules` (organize.py lines 9–30): a missing file or malformed JSON
yields the empty mapping; otherwise the parsed mapping is inverted. -/
def load_rules (r : LoadResult) : List (String × String) :=
  match r with
  | .missing => []
  | .malformed => []
  | .ok rules => invert_rules rules

/-- Position of the last occurrence of a dot in a character list
(Python `str.rfind`, restricted to the dot, as an `Option`). -/
def rfindDot : List Char → Option Nat
  | [] => none
  | c :: cs =>
    match rfindDot cs with
    | some i => some (i + 1)
    | none => if c = '.' then some 0 else none

/-- `pathlib.PurePath.suffix` of a file name: with `i = name.rfind('.')`,
the slice `name[i:]` when `0 < i < len(name) - 1`, else the empty string
(so names without a dot, dotfiles such as `.gitignore`, and names ending
in a dot all have an empty suffix). -/
def suffix (name : String) : String :=
  match rfindDot name.data with
  | none => ""
  | some i => if 0 < i ∧ i + 1 < name.data.length then String.mk (name.data.drop i) else ""

/-- `get_file_folder` (organize.py lines 33–40): `rules.get(item.suffix.lower())`. -/
def get_file_folder (name : String) (rules : List (String × String)) : Option String :=
  dictGet rules (lowerStr (suffix name))

/-- The spec's `RuleTable.resolve`: look up an extension string after
lower-casing it, exactly the `rules.get(….lower())` lookup of the code. -/
def resolve (rules : List (String × String)) (ext : String) : Option String :=
  dictGet rules (lowerStr ext)

/-- The flat registration sequence a configuration performs, in order:
one `(ext.lower(), category)` pair per listed extension. -/
def regs (config : RawConfig) : List (String × String) :=
  config.flatMap (fun p => p.2.map (fun ext => (lowerStr ext, p.1)))

/-- The category of the last registration of key `k` in the configuration's
insertion order, if any. -/
def lastRegCat (config : RawConfig) (k : String) : Option String :=
  ((regs config).reverse.find? (fun p => p.1 = k)).map (fun p => p.2)

/-- One immediate child of the target directory: its name and whether it is
a regular file (`item.is_file()`); sub-directories, symlinks and special
files all answer `false`. -/
structure Entry where
  name : String
  isFile : Bool
deriving DecidableEq

/-- The filesystem as the pass observes it: the target directory's
immediate children. -/
structure FS where
  entries : List Entry
deriving DecidableEq

/-- The state of the path handed to `organize_files`. -/
inductive PathState where
  | absent
  | file
  | dir (fs : FS)
deriving DecidableEq

/-- The exceptions `organize_files` can raise: the two precondition
errors, and `FileExistsError` from `folder_path.mkdir(exist_ok=True)`
when a regular file already bears the category name (this call sits
outside the per-item `try`, so it propagates). -/
inductive OrgError where
  | fileNotFound
  | notADirectory
  | fileExists (name : String)
deriving DecidableEq

/-- The per-entry log records `organize_files` emits. -/
inductive Outcome where
  | moved (name folder : String)
  | simulated (name folder : String)
  | skippedNotAFile (name : String)
  | failed (name detail : String)
deriving DecidableEq

/-- The entry name an outcome reports. -/
def Outcome.name : Outcome → String
  | .moved n _ => n
  | .simulated n _ => n
  | .skippedNotAFile n => n
  | .failed n _ => n

/-- What a run of the per-entry loop produces: the emitted log records,
the uncaught exception if one aborted the loop, and the directory
listing afterwards. -/
structure LoopRes where
  log : List Outcome
  err : Option OrgError
  fs : FS
deriving DecidableEq

/-- Prepend a log record to a loop result. -/
def addLog (o : Outcome) (r : LoopRes) : LoopRes :=
  ⟨o :: r.log, r.err, r.fs⟩

/-- `folder_path.mkdir(exist_ok=True)`: no-op when a directory of that name
exists, creates the directory when nothing of that name exists, raises
`FileExistsError` when a non-directory of that name exists. -/
def mkdirExistOk (fs : FS) (folder : String) : Except OrgError FS :=
  match fs.entries.find? (fun e => e.name = folder) with
  | some e => if e.isFile then Except.error (.fileExists folder) else Except.ok fs
  | none => Except.ok ⟨fs.entries ++ [⟨folder, false⟩]⟩

/-- A successful `shutil.move` out of the target directory: the entry
leaves the directory's listing (it now lives inside the sub-folder). -/
def moveOut (fs : FS) (name : String) : FS :=
  ⟨fs.entries.filter (fun e => e.name ≠ name)⟩

/-- The Python truthiness test `if folder_name:` applied to the result of
`get_file_folder`: both `None` and the empty string are falsy, so an
extension registered under the category `""` behaves exactly like no
match — the branch that creates the folder and moves the file is not
taken.  Truthy values pass through unchanged. -/
def truthyFolder (o : Option String) : Option String :=
  match o with
  | some s => if s = "" then none else some s
  | none => none

/-- The `for item in path.iterdir()` loop of `organize_files` (lines
56–71), iterating the snapshot `os.listdir` took at loop entry while the
listing mutates.  The match/move branch is guarded by the truthiness of
`folder_name` (`if folder_name:` on line 59), so a `None` and an
empty-string category are both silently skipped with no record.
`fault name = some detail` means the `shutil.move` call for that entry
raises with that detail (caught by the per-item handler); `none` means
it succeeds. -/
def runLoop (rules : List (String × String)) (dry : Bool) (fault : String → Option String) :
    List Entry → FS → LoopRes
  | [], fs => ⟨[], none, fs⟩
  | item :: rest, fs =>
    if item.isFile then
      match truthyFolder (get_file_folder item.name rules) with
      | some folder =>
        match mkdirExistOk fs folder with
        | .error e => ⟨[], some e, fs⟩
        | .ok fs1 =>
          if dry then
            addLog (.simulated item.name folder) (runLoop rules dry fault rest fs1)
          else
            match fault item.name with
            | some detail => addLog (.failed item.name detail) (runLoop rules dry fault rest fs1)
            | none => addLog (.moved item.name folder) (runLoop rules dry fault rest (moveOut fs1 item.name))
      | none => runLoop rules dry fault rest fs
    else
      addLog (.skippedNotAFile item.name) (runLoop rules dry fault rest fs)

/-- Result of one `organize_files` call: log records, the exception it
raised (if any), and the path's state after the call. -/
structure RunResult where
  log : List Outcome
  err : Option OrgError
  post : PathState
deriving DecidableEq

/-- `organize_files` (organize.py lines 42–71): the two precondition
checks, then the per-entry loop over the directory's immediate children. -/
def organize_files (path : PathState) (rules : List (String × String)) (arg_dry_run : Bool)
    (fault : String → Option String) : RunResult :=
  match path with
  | .absent => ⟨[], some .fileNotFound, .absent⟩
  | .file => ⟨[], some .notADirectory, .file⟩
  | .dir fs =>
    let r := runLoop rules arg_dry_run fault fs.entries fs
    ⟨r.log, r.err, .dir r.fs⟩

/-- The log record a single entry contributes in an un-aborted run:
`none` for a regular file whose extension has no truthy category — no
match at all, or a match on the empty-string category, both falsy under
`if folder_name:` — since the code logs nothing for it. -/
def outcomeFor (rules : List (String × String)) (dry : Bool) (fault : String → Option String)
    (e : Entry) : Option Outcome :=
  if e.isFile then
    match truthyFolder (get_file_folder e.name rules) with
    | some folder =>
      if dry then some (.simulated e.name folder)
      else
        match fault e.name with
        | some detail => some (.failed e.name detail)
        | none => some (.moved e.name folder)
    | none => none
  else some (.skippedNotAFile e.name)

/-- `main` (organize.py lines 84–113), after argument parsing: load the
rules, halt (`none`) when the mapping came back empty, otherwise run the
organizer once. -/
def main (cfg : LoadResult) (path : PathState) (dry : Bool) (fault : String → Option String) :
    Option RunResult :=
  let rules := load_rules cfg
  if rules.isEmpty then none
  else some (organize_files path rules dry fault)

/-! ### Rule-table lemmas -/

/-- Looking up after an insertion: the inserted key answers the new value,
every other key is unaffected. -/
theorem dictGet_dictInsert (d : List (String × String)) (k v k' : String) :
    dictGet (dictInsert d k v) k' = if k' = k then some v else dictGet d k' := by
  induction d with
  | nil =>
    by_cases h : k' = k
    · subst h; simp [dictInsert, dictGet]
    · have h2 : ¬ k = k' := fun hh => h hh.symm
      simp [dictInsert, dictGet, h, h2]
  | cons p rest ih =>
    obtain ⟨k0, v0⟩ := p
    by_cases h0 : k0 = k
    · subst h0
      by_cases h : k' = k0
      · subst h; simp [dictInsert, dictGet]
      · have h2 : ¬ k0 = k' := fun hh => h hh.symm
        simp [dictInsert, dictGet, h, h2]
    · by_cases h : k' = k0
      · subst h
        have h2 : ¬ k' = k := h0
        simp [dictInsert, dictGet, h0, h2]
      · have h2 : ¬ k0 = k' := fun hh => h hh.symm
        simp [dictInsert, dictGet, h0, h, h2, ih]

/-- A key occurs in the inserted table iff it occurs in the old table or
is the inserted key. -/
theorem mem_keys_dictInsert (d : List (String × String)) (k v a : String) :
    a ∈ (dictInsert d k v).map Prod.fst ↔ a ∈ d.map Prod.fst ∨ a = k := by
  induction d with
  | nil => simp [dictInsert]
  | cons p rest ih =>
    obtain ⟨k0, v0⟩ := p
    by_cases h0 : k0 = k
    · subst h0
      have hstep : dictInsert ((k0, v0) :: rest) k0 v = (k0, v) :: rest := by
        simp [dictInsert]
      rw [hstep]
      simp only [List.map_cons, List.mem_cons]
      tauto
    · simp only [dictInsert, if_neg h0, List.map_cons, List.mem_cons]
      rw [ih]
      tauto

/-- Insertion keeps the table's keys pairwise distinct. -/
theorem nodup_keys_dictInsert (d : List (String × String)) (k v : String)
    (h : (d.map Prod.fst).Nodup) : ((dictInsert d k v).map Prod.fst).Nodup := by
  induction d with
  | nil => simp [dictInsert]
  | cons p rest ih =>
    obtain ⟨k0, v0⟩ := p
    simp only [List.map_cons, List.nodup_cons] at h
    by_cases h0 : k0 = k
    · subst h0
      simpa [dictInsert, List.nodup_cons] using h
    · simp only [dictInsert, if_neg h0, List.map_cons, List.nodup_cons]
      refine ⟨fun hmem => ?_, ih h.2⟩
      rcases (mem_keys_dictInsert rest k v k0).mp hmem with h1 | h1
      · exact h.1 h1
      · exact h0 h1

/-- Fold a batch of insertions into a table. -/
def dictInsertMany (d : List (String × String)) (ps : List (String × String)) :
    List (String × String) :=
  ps.foldl (fun acc p => dictInsert acc p.1 p.2) d

theorem dictInsertMany_append (d : List (String × String)) (a b : List (String × String)) :
    dictInsertMany d (a ++ b) = dictInsertMany (dictInsertMany d a) b :=
  List.foldl_append _ _ _ _

theorem nodup_keys_dictInsertMany (ps : List (String × String))
    (d : List (String × String)) (h : (d.map Prod.fst).Nodup) :
    ((dictInsertMany d ps).map Prod.fst).Nodup := by
  induction ps generalizing d with
  | nil => exact h
  | cons p rest ih => exact ih _ (nodup_keys_dictInsert d p.1 p.2 h)

/-- Lookup after a batch of insertions: the last insertion of the key (if
any) answers, else the underlying table does. -/
theorem dictGet_dictInsertMany (ps : List (String × String))
    (d : List (String × String)) (k : String) :
    dictGet (dictInsertMany d ps) k =
      match ps.reverse.find? (fun p => p.1 = k) with
      | some p => some p.2
      | none => dictGet d k := by
  induction ps generalizing d with
  | nil => simp [dictInsertMany]
  | cons p rest ih =>
    have hstep : dictInsertMany d (p :: rest) = dictInsertMany (dictInsert d p.1 p.2) rest := rfl
    rw [hstep, ih, List.reverse_cons, List.find?_append]
    rcases hfind : rest.reverse.find? (fun q => decide (q.1 = k)) with _ | q
    · rw [hfind]
      by_cases hk : p.1 = k
      · have h1 : List.find? (fun q => decide (q.1 = k)) [p] = some p := by
          simp [List.find?_cons, hk]
        rw [h1, dictGet_dictInsert]
        have hk2 : k = p.1 := hk.symm
        simp [hk2]
      · have h1 : List.find? (fun q => decide (q.1 = k)) [p] = none := by
          simp [List.find?_cons, hk]
        rw [h1, dictGet_dictInsert]
        have hk2 : ¬ k = p.1 := fun h => hk h.symm
        simp [hk2]
    · rw [hfind]
      simp [Option.or]

/-- `invert_rules` is exactly the batch insertion of the configuration's
registration sequence into the empty table. -/
theorem invert_rules_eq_dictInsertMany (config : RawConfig) :
    invert_rules config = dictInsertMany [] (regs config) := by
  suffices h : ∀ (cfg : RawConfig) (acc : List (String × String)),
      cfg.foldl
        (fun inverted p => p.2.foldl (fun inv ext => dictInsert inv (lowerStr ext) p.1) inverted)
        acc = dictInsertMany acc (regs cfg) by
    exact h config []
  intro cfg
  induction cfg with
  | nil => intro acc; simp [regs, dictInsertMany]
  | cons p rest ih =>
    intro acc
    have hinner : p.2.foldl (fun inv ext => dictInsert inv (lowerStr ext) p.1) acc =
        dictInsertMany acc (p.2.map (fun ext => (lowerStr ext, p.1))) := by
      rw [dictInsertMany, List.foldl_map]
    have hregs : regs (p :: rest) = p.2.map (fun ext => (lowerStr ext, p.1)) ++ regs rest := by
      simp [regs]
    rw [List.foldl_cons, ih, hinner, hregs, dictInsertMany_append]

/-- The central rule-table characterization: lookup in the inverted table
answers the category of the *last* registration of the key in the
configuration's insertion order. -/
theorem dictGet_invert_rules (config : RawConfig) (k : String) :
    dictGet (invert_rules config) k = lastRegCat config k := by
  rw [invert_rules_eq_dictInsertMany, dictGet_dictInsertMany, lastRegCat]
  rcases h : (regs config).reverse.find? (fun p => decide (p.1 = k)) with _ | p <;>
    simp [h, dictGet]

/-- Keys of the inverted table are pairwise distinct. -/
theorem nodup_keys_invert_rules (config : RawConfig) :
    ((invert_rules config).map Prod.fst).Nodup := by
  rw [invert_rules_eq_dictInsertMany]
  exact nodup_keys_dictInsertMany _ _ (by simp)

/-! ### Loop lemmas -/

@[simp]
theorem addLog_log (o : Outcome) (r : LoopRes) : (addLog o r).log = o :: r.log := rfl

@[simp]
theorem addLog_err (o : Outcome) (r : LoopRes) : (addLog o r).err = r.err := rfl

@[simp]
theorem addLog_fs (o : Outcome) (r : LoopRes) : (addLog o r).fs = r.fs := rfl

/-- A successful `mkdir` call either found the directory (listing
unchanged) or created it (listing extended by one directory entry). -/
theorem mkdirExistOk_ok_entries (fs : FS) (folder : String) (fs1 : FS)
    (h : mkdirExistOk fs folder = Except.ok fs1) :
    fs1.entries = fs.entries ∨ fs1.entries = fs.entries ++ [⟨folder, false⟩] := by
  unfold mkdirExistOk at h
  rcases hfind : fs.entries.find? (fun e => e.name = folder) with _ | e
  · rw [hfind] at h
    right
    cases h
    rfl
  · rw [hfind] at h
    rcases hfile : e.isFile with _ | _
    · simp only [hfile, Bool.false_eq_true, if_false, Except.ok.injEq] at h
      subst h
      exact Or.inl rfl
    · simp only [hfile, if_true] at h
      cases h

/-- Entries present after the loop were already present before, except for
directory entries (the created category folders). -/
theorem runLoop_post_mem (rules : List (String × String)) (dry : Bool)
    (fault : String → Option String) (es : List Entry) :
    ∀ (fs : FS) (e : Entry), e ∈ (runLoop rules dry fault es fs).fs.entries →
      e ∈ fs.entries ∨ e.isFile = false := by
  induction es with
  | nil =>
    intro fs e h
    exact Or.inl (by simpa [runLoop] using h)
  | cons item rest ih =>
    intro fs e h
    by_cases hf : item.isFile = true
    · rcases hg : truthyFolder (get_file_folder item.name rules) with _ | folder
      · rw [runLoop] at h
        simp only [hf, if_true, hg] at h
        exact ih fs e h
      · rcases hm : mkdirExistOk fs folder with err | fs1
        · rw [runLoop] at h
          simp only [hf, if_true, hg, hm] at h
          exact Or.inl h
        · have hmem : ∀ e' : Entry, e' ∈ fs1.entries → e' ∈ fs.entries ∨ e'.isFile = false := by
            intro e' he'
            rcases mkdirExistOk_ok_entries fs folder fs1 hm with hcase | hcase
            · exact Or.inl (hcase ▸ he')
            · rw [hcase, List.mem_append] at he'
              rcases he' with he' | he'
              · exact Or.inl he'
              · simp at he'
                subst he'
                exact Or.inr rfl
          rcases hd : dry with _ | _ <;> subst hd
          · rcases hfault : fault item.name with _ | detail
            · rw [runLoop] at h
              simp only [hf, if_true, hg, hm, Bool.false_eq_true, if_false, hfault,
                addLog_fs] at h
              rcases ih (moveOut fs1 item.name) e h with h2 | h2
              · have h3 : e ∈ fs1.entries := List.mem_of_mem_filter h2
                exact hmem e h3
              · exact Or.inr h2
            · rw [runLoop] at h
              simp only [hf, if_true, hg, hm, Bool.false_eq_true, if_false, hfault,
                addLog_fs] at h
              rcases ih fs1 e h with h2 | h2
              · exact hmem e h2
              · exact Or.inr h2
          · rw [runLoop] at h
            simp only [hf, if_true, hg, hm, addLog_fs] at h
            rcases ih fs1 e h with h2 | h2
            · exact hmem e h2
            · exact Or.inr h2
    · rw [runLoop] at h
      simp only [hf, if_false] at h
      exact ih fs e h

/-- What holds of the snapshot entry that produced a given log record:
records of the match branch carry a *truthy* resolved category. -/
def Witnessed (rules : List (String × String)) (dry : Bool) (fault : String → Option String)
    (item : Entry) : Outcome → Prop
  | .moved n f => item.name = n ∧ item.isFile = true ∧
      truthyFolder (get_file_folder n rules) = some f ∧ dry = false ∧ fault n = none
  | .simulated n f => item.name = n ∧ item.isFile = true ∧
      truthyFolder (get_file_folder n rules) = some f ∧ dry = true
  | .failed n d => item.name = n ∧ item.isFile = true ∧
      (∃ f, truthyFolder (get_file_folder n rules) = some f) ∧ dry = false ∧ fault n = some d
  | .skippedNotAFile n => item.name = n ∧ item.isFile = false

/-- Every log record stems from one snapshot entry, of the matching kind:
moved/simulated/failed records come from regular files whose extension
resolved (with the mode and fault the record reports), skip records from
non-file entries. -/
theorem runLoop_log_witness (rules : List (String × String)) (dry : Bool)
    (fault : String → Option String) (es : List Entry) :
    ∀ (fs : FS) (o : Outcome), o ∈ (runLoop rules dry fault es fs).log →
      ∃ item ∈ es, Witnessed rules dry fault item o := by
  induction es with
  | nil =>
    intro fs o h
    simp [runLoop] at h
  | cons item rest ih =>
    intro fs o h
    have step : ∀ fs', o ∈ (runLoop rules dry fault rest fs').log →
        ∃ it ∈ item :: rest, Witnessed rules dry fault it o := by
      intro fs' h'
      obtain ⟨it, hit, hw⟩ := ih fs' o h'
      exact ⟨it, List.mem_cons_of_mem _ hit, hw⟩
    by_cases hf : item.isFile = true
    · rcases hg : truthyFolder (get_file_folder item.name rules) with _ | folder
      · rw [runLoop] at h
        simp only [hf, if_true, hg] at h
        exact step fs h
      · rcases hm : mkdirExistOk fs folder with err | fs1
        · rw [runLoop] at h
          simp only [hf, if_true, hg, hm] at h
          simp at h
        · rcases hd : dry with _ | _ <;> subst hd
          · rcases hfault : fault item.name with _ | detail
            · rw [runLoop] at h
              simp only [hf, if_true, hg, hm, Bool.false_eq_true, if_false, hfault,
                addLog_log, List.mem_cons] at h
              rcases h with h | h
              · subst h
                exact ⟨item, List.mem_cons_self _ _, rfl, hf, hg, rfl, hfault⟩
              · exact step (moveOut fs1 item.name) h
            · rw [runLoop] at h
              simp only [hf, if_true, hg, hm, Bool.false_eq_true, if_false, hfault,
                addLog_log, List.mem_cons] at h
              rcases h with h | h
              · subst h
                exact ⟨item, List.mem_cons_self _ _, rfl, hf, ⟨folder, hg⟩, rfl, hfault⟩
              · exact step fs1 h
          · rw [runLoop] at h
            simp only [hf, if_true, hg, hm, addLog_log, List.mem_cons] at h
            rcases h with h | h
            · subst h
              exact ⟨item, List.mem_cons_self _ _, rfl, hf, hg, rfl⟩
            · exact step fs1 h
    · rw [runLoop] at h
      simp only [hf, Bool.false_eq_true, if_false, addLog_log, List.mem_cons] at h
      rcases h with h | h
      · subst h
        exact ⟨item, List.mem_cons_self _ _, rfl, by simpa using hf⟩
      · exact step fs h

/-- The only exception `mkdir` raises is `FileExistsError` for its own
folder name. -/
theorem mkdirExistOk_error_eq (fs : FS) (folder : String) (e : OrgError)
    (h : mkdirExistOk fs folder = Except.error e) : e = OrgError.fileExists folder := by
  unfold mkdirExistOk at h
  rcases hfind : fs.entries.find? (fun e' => e'.name = folder) with _ | e0
  · rw [hfind] at h
    cases h
  · rw [hfind] at h
    rcases hfile : e0.isFile with _ | _
    · simp only [hfile, Bool.false_eq_true, if_false] at h
      cases h
    · simp only [hfile, if_true, Except.error.injEq] at h
      exact h.symm

/-- The loop's uncaught exception, when there is one, is a
`FileExistsError`: never one of the precondition errors. -/
theorem runLoop_err_shape (rules : List (String × String)) (dry : Bool)
    (fault : String → Option String) (es : List Entry) :
    ∀ fs : FS, (runLoop rules dry fault es fs).err = none ∨
      ∃ n, (runLoop rules dry fault es fs).err = some (OrgError.fileExists n) := by
  induction es with
  | nil =>
    intro fs
    left
    simp [runLoop]
  | cons item rest ih =>
    intro fs
    by_cases hf : item.isFile = true
    · rcases hg : truthyFolder (get_file_folder item.name rules) with _ | folder
      · rw [runLoop]
        simp only [hf, if_true, hg]
        exact ih fs
      · rcases hm : mkdirExistOk fs folder with err | fs1
        · rw [runLoop]
          simp only [hf, if_true, hg, hm]
          right
          exact ⟨folder, by simp [mkdirExistOk_error_eq fs folder err hm]⟩
        · rcases hd : dry with _ | _ <;> subst hd
          · rcases hfault : fault item.name with _ | detail
            · rw [runLoop]
              simp only [hf, if_true, hg, hm, Bool.false_eq_true, if_false, hfault, addLog_err]
              exact ih (moveOut fs1 item.name)
            · rw [runLoop]
              simp only [hf, if_true, hg, hm, Bool.false_eq_true, if_false, hfault, addLog_err]
              exact ih fs1
          · rw [runLoop]
            simp only [hf, if_true, hg, hm, addLog_err]
            exact ih fs1
    · rw [runLoop]
      simp only [hf, Bool.false_eq_true, if_false, addLog_err]
      exact ih fs

/-- In an un-aborted run the log is exactly one record per snapshot entry
as given by `outcomeFor` — in snapshot order, with nothing for no-match
files. -/
theorem runLoop_log_eq (rules : List (String × String)) (dry : Bool)
    (fault : String → Option String) (es : List Entry) :
    ∀ fs : FS, (runLoop rules dry fault es fs).err = none →
      (runLoop rules dry fault es fs).log = es.filterMap (outcomeFor rules dry fault) := by
  induction es with
  | nil =>
    intro fs _
    simp [runLoop]
  | cons item rest ih =>
    intro fs herr
    by_cases hf : item.isFile = true
    · rcases hg : truthyFolder (get_file_folder item.name rules) with _ | folder
      · rw [runLoop] at herr ⊢
        simp only [hf, if_true, hg] at herr ⊢
        rw [ih fs herr]
        simp [List.filterMap_cons, outcomeFor, hf, hg]
      · rcases hm : mkdirExistOk fs folder with err | fs1
        · rw [runLoop] at herr
          simp only [hf, if_true, hg, hm] at herr
          simp at herr
        · rcases hd : dry with _ | _ <;> subst hd
          · rcases hfault : fault item.name with _ | detail
            · rw [runLoop] at herr ⊢
              simp only [hf, if_true, hg, hm, Bool.false_eq_true, if_false, hfault,
                addLog_err, addLog_log] at herr ⊢
              rw [ih _ herr]
              simp [List.filterMap_cons, outcomeFor, hf, hg, hfault]
            · rw [runLoop] at herr ⊢
              simp only [hf, if_true, hg, hm, Bool.false_eq_true, if_false, hfault,
                addLog_err, addLog_log] at herr ⊢
              rw [ih _ herr]
              simp [List.filterMap_cons, outcomeFor, hf, hg, hfault]
          · rw [runLoop] at herr ⊢
            simp only [hf, if_true, hg, hm, addLog_err, addLog_log] at herr ⊢
            rw [ih _ herr]
            simp [List.filterMap_cons, outcomeFor, hf, hg]
    · rw [runLoop] at herr ⊢
      simp only [hf, Bool.false_eq_true, if_false, addLog_err, addLog_log] at herr ⊢
      rw [ih fs herr]
      simp [List.filterMap_cons, outcomeFor, hf]

/-- An entry stays in the listing throughout the loop when no regular-file
snapshot entry of its name has a matching category (only successful moves
remove entries, and they remove the moved file's name). -/
theorem runLoop_preserved (rules : List (String × String)) (dry : Bool)
    (fault : String → Option String) (es : List Entry) :
    ∀ (fs : FS) (e : Entry), e ∈ fs.entries →
      (∀ item ∈ es, item.isFile = true → item.name = e.name →
        get_file_folder item.name rules = none) →
      e ∈ (runLoop rules dry fault es fs).fs.entries := by
  induction es with
  | nil =>
    intro fs e he _
    simpa [runLoop] using he
  | cons item rest ih =>
    intro fs e he hside
    have hsideRest : ∀ it ∈ rest, it.isFile = true → it.name = e.name →
        get_file_folder it.name rules = none :=
      fun it hit => hside it (List.mem_cons_of_mem _ hit)
    by_cases hf : item.isFile = true
    · rcases hg : truthyFolder (get_file_folder item.name rules) with _ | folder
      · rw [runLoop]
        simp only [hf, if_true, hg]
        exact ih fs e he hsideRest
      · rcases hm : mkdirExistOk fs folder with err | fs1
        · rw [runLoop]
          simp only [hf, if_true, hg, hm]
          exact he
        · have he1 : e ∈ fs1.entries := by
            rcases mkdirExistOk_ok_entries fs folder fs1 hm with hc | hc
            · rw [hc]; exact he
            · rw [hc]; exact List.mem_append_left _ he
          have hne : ¬ item.name = e.name := by
            intro hn
            have hnone := hside item (List.mem_cons_self _ _) hf hn
            rw [hnone] at hg
            simp [truthyFolder] at hg
          rcases hd : dry with _ | _ <;> subst hd
          · rcases hfault : fault item.name with _ | detail
            · rw [runLoop]
              simp only [hf, if_true, hg, hm, Bool.false_eq_true, if_false, hfault, addLog_fs]
              refine ih _ e ?_ hsideRest
              exact List.mem_filter.mpr ⟨he1, by simpa using fun hh => hne hh.symm⟩
            · rw [runLoop]
              simp only [hf, if_true, hg, hm, Bool.false_eq_true, if_false, hfault, addLog_fs]
              exact ih fs1 e he1 hsideRest
          · rw [runLoop]
            simp only [hf, if_true, hg, hm, addLog_fs]
            exact ih fs1 e he1 hsideRest
    · rw [runLoop]
      simp only [hf, Bool.false_eq_true, if_false, addLog_fs]
      exact ih fs e he hsideRest

/-- Once the loop has logged `moved n f`, no regular file named `n`
remains in the listing when the loop finishes. -/
theorem runLoop_moved_no_file_left (rules : List (String × String)) (dry : Bool)
    (fault : String → Option String) (es : List Entry) :
    ∀ (fs : FS) (n f : String), Outcome.moved n f ∈ (runLoop rules dry fault es fs).log →
      ∀ e ∈ (runLoop rules dry fault es fs).fs.entries, e.name = n → e.isFile = false := by
  induction es with
  | nil =>
    intro fs n f h
    simp [runLoop] at h
  | cons item rest ih =>
    intro fs n f hlog e hpost hname
    by_cases hf : item.isFile = true
    · rcases hg : truthyFolder (get_file_folder item.name rules) with _ | folder
      · rw [runLoop] at hlog hpost
        simp only [hf, if_true, hg] at hlog hpost
        exact ih fs n f hlog e hpost hname
      · rcases hm : mkdirExistOk fs folder with err | fs1
        · rw [runLoop] at hlog
          simp only [hf, if_true, hg, hm] at hlog
          simp at hlog
        · rcases hd : dry with _ | _ <;> subst hd
          · rcases hfault : fault item.name with _ | detail
            · rw [runLoop] at hlog hpost
              simp only [hf, if_true, hg, hm, Bool.false_eq_true, if_false, hfault,
                addLog_log, addLog_fs, List.mem_cons] at hlog hpost
              rcases hlog with heq | hlog
              · simp only [Outcome.moved.injEq] at heq
                obtain ⟨hn1, -⟩ := heq
                rcases runLoop_post_mem rules false fault rest (moveOut fs1 item.name) e hpost
                  with hmem | hfl
                · obtain ⟨-, hdec⟩ := List.mem_filter.mp hmem
                  exact absurd (hname.trans hn1) (by simpa using hdec)
                · exact hfl
              · exact ih _ n f hlog e hpost hname
            · rw [runLoop] at hlog hpost
              simp only [hf, if_true, hg, hm, Bool.false_eq_true, if_false, hfault,
                addLog_log, addLog_fs, List.mem_cons] at hlog hpost
              rcases hlog with heq | hlog
              · cases heq
              · exact ih fs1 n f hlog e hpost hname
          · rw [runLoop] at hlog hpost
            simp only [hf, if_true, hg, hm, addLog_log, addLog_fs, List.mem_cons] at hlog hpost
            rcases hlog with heq | hlog
            · cases heq
            · exact ih fs1 n f hlog e hpost hname
    · rw [runLoop] at hlog hpost
      simp only [hf, Bool.false_eq_true, if_false, addLog_log, addLog_fs,
        List.mem_cons] at hlog hpost
      rcases hlog with heq | hlog
      · cases heq
      · exact ih fs n f hlog e hpost hname

/-- In dry-run mode the loop only ever appends directory entries (the
`mkdir` calls) to the listing: every original entry survives in place and
every added entry is a directory. -/
theorem runLoop_dry_entries (rules : List (String × String)) (fault : String → Option String)
    (es : List Entry) :
    ∀ fs : FS, ∃ ds : List Entry,
      (runLoop rules true fault es fs).fs.entries = fs.entries ++ ds ∧
      ∀ d ∈ ds, d.isFile = false := by
  induction es with
  | nil =>
    intro fs
    exact ⟨[], by simp [runLoop], by simp⟩
  | cons item rest ih =>
    intro fs
    by_cases hf : item.isFile = true
    · rcases hg : truthyFolder (get_file_folder item.name rules) with _ | folder
      · rw [runLoop]
        simp only [hf, if_true, hg]
        exact ih fs
      · rcases hm : mkdirExistOk fs folder with err | fs1
        · rw [runLoop]
          simp only [hf, if_true, hg, hm]
          exact ⟨[], by simp, by simp⟩
        · rw [runLoop]
          simp only [hf, if_true, hg, hm, if_true, addLog_fs]
          obtain ⟨ds, hds, hdf⟩ := ih fs1
          rcases mkdirExistOk_ok_entries fs folder fs1 hm with hc | hc
          · exact ⟨ds, by rw [hds, hc], hdf⟩
          · refine ⟨⟨folder, false⟩ :: ds, ?_, ?_⟩
            · rw [hds, hc, List.append_assoc]
              rfl
            · intro d hd
              rcases List.mem_cons.mp hd with h | h
              · rw [h]
              · exact hdf d h
    · rw [runLoop]
      simp only [hf, Bool.false_eq_true, if_false, addLog_fs]
      exact ih fs

/-- The listing of the target directory after a run (empty for the
non-directory path states, which the run leaves untouched). -/
def RunResult.postEntries (r : RunResult) : List Entry :=
  match r.post with
  | .dir fs => fs.entries
  | _ => []

/-- The snapshot entry behind a log record bears the record's name. -/
theorem witnessed_name (rules : List (String × String)) (dry : Bool)
    (fault : String → Option String) (item : Entry) (o : Outcome)
    (h : Witnessed rules dry fault item o) : item.name = Outcome.name o := by
  cases o <;> exact h.1

/-- A dot-free character list has no dot to find. -/
theorem rfindDot_eq_none (l : List Char) (h : ('.') ∉ l) : rfindDot l = none := by
  induction l with
  | nil => rfl
  | cons c cs ih =>
    have hc : ¬ c = ('.') := fun hh => h (hh ▸ List.mem_cons_self _ _)
    have hcs : ('.') ∉ cs := fun hh => h (List.mem_cons_of_mem _ hh)
    rw [rfindDot, ih hcs]
    simp [hc]

/-! ### The claims -/

/-- C1 counterexample: with dryRun=true and one matching file whose
category folder does not exist yet, the run still creates the folder —
the `mkdir` call precedes the dry-run branch — so the directory's entry
set is not identical afterwards. -/
theorem C1_counterexample :
    (organize_files (.dir ⟨[⟨("a.jpg"), true⟩]⟩) [((".jpg"), ("Images"))] true
        (fun _ => none)).post =
      PathState.dir ⟨[⟨("a.jpg"), true⟩, ⟨("Images"), false⟩]⟩ ∧
    (organize_files (.dir ⟨[⟨("a.jpg"), true⟩]⟩) [((".jpg"), ("Images"))] true
        (fun _ => none)).post ≠
      PathState.dir ⟨[⟨("a.jpg"), true⟩]⟩ := by
  constructor
  · decide
  · decide

/-- C1 (amended): with dryRun=true no file is ever moved — the set of
regular-file entries is unchanged and every original entry survives in
place — but category sub-directories may still be created for matching
files (the directory-creation step runs before the dry-run branch), so
the only possible new entries are directories. -/
theorem C1_dry_run_moves_nothing (rules : List (String × String))
    (fault : String → Option String) (fs : FS) :
    ∃ fs' : FS, (organize_files (.dir fs) rules true fault).post = .dir fs' ∧
      fs'.entries.filter (fun e => e.isFile) = fs.entries.filter (fun e => e.isFile) ∧
      (∀ e ∈ fs.entries, e ∈ fs'.entries) ∧
      (∀ e ∈ fs'.entries, e ∈ fs.entries ∨ e.isFile = false) := by
  obtain ⟨ds, hds, hdf⟩ := runLoop_dry_entries rules fault fs.entries fs
  refine ⟨(runLoop rules true fault fs.entries fs).fs, rfl, ?_, ?_, ?_⟩
  · rw [hds, List.filter_append]
    have hnil : ds.filter (fun e => e.isFile) = [] := by
      rw [List.filter_eq_nil_iff]
      intro a ha
      simp [hdf a ha]
    rw [hnil, List.append_nil]
  · intro e he
    rw [hds]
    exact List.mem_append_left _ he
  · intro e he
    exact runLoop_post_mem rules true fault fs.entries fs e he

/-- C2 counterexample: a regular file bearing the category name
(`Images`) makes the `mkdir` call raise before the loop reaches the
sub-directory `d`, so `d` — a non-file entry of the directory — gets no
skipped-not-a-file record: the raise aborts the enumeration. -/
theorem C2_counterexample :
    (⟨("d"), false⟩ ∈ ([⟨("a.jpg"), true⟩, ⟨("Images"), true⟩, ⟨("d"), false⟩] : List Entry)) ∧
    Outcome.skippedNotAFile ("d") ∉
      (organize_files (.dir ⟨[⟨("a.jpg"), true⟩, ⟨("Images"), true⟩, ⟨("d"), false⟩]⟩)
        [((".jpg"), ("Images"))] false (fun _ => none)).log := by
  constructor
  · decide
  · decide

/-- C2 (amended): in a run that is not aborted by an uncaught
directory-creation failure, every non-file entry is recorded as
skipped-not-a-file, is never moved, simulated or failed (no classification
or movement is attempted on it) and survives in place; and the log only
ever names the directory's immediate children — nothing is descended
into. -/
theorem C2_non_file_skipped (rules : List (String × String)) (dry : Bool)
    (fault : String → Option String) (fs : FS)
    (hnd : (fs.entries.map Entry.name).Nodup)
    (herr : (organize_files (.dir fs) rules dry fault).err = none) :
    (∀ e ∈ fs.entries, e.isFile = false →
      Outcome.skippedNotAFile e.name ∈ (organize_files (.dir fs) rules dry fault).log ∧
      e ∈ (organize_files (.dir fs) rules dry fault).postEntries ∧
      (∀ f, Outcome.moved e.name f ∉ (organize_files (.dir fs) rules dry fault).log ∧
        Outcome.simulated e.name f ∉ (organize_files (.dir fs) rules dry fault).log) ∧
      (∀ d, Outcome.failed e.name d ∉ (organize_files (.dir fs) rules dry fault).log)) ∧
    (∀ o ∈ (organize_files (.dir fs) rules dry fault).log,
      Outcome.name o ∈ fs.entries.map Entry.name) := by
  have hlog : (organize_files (.dir fs) rules dry fault).log =
      (runLoop rules dry fault fs.entries fs).log := rfl
  have herr2 : (runLoop rules dry fault fs.entries fs).err = none := herr
  constructor
  · intro e he hef
    refine ⟨?_, ?_, ?_, ?_⟩
    · rw [hlog, runLoop_log_eq rules dry fault fs.entries fs herr2]
      exact List.mem_filterMap.mpr ⟨e, he, by simp [outcomeFor, hef]⟩
    · show e ∈ (runLoop rules dry fault fs.entries fs).fs.entries
      refine runLoop_preserved rules dry fault fs.entries fs e he ?_
      intro item hit hfile hname
      have : item = e := List.inj_on_of_nodup_map hnd hit he hname
      rw [this] at hfile
      rw [hef] at hfile
      cases hfile
    · intro f
      constructor
      · intro hmem
        rw [hlog] at hmem
        obtain ⟨item, hit, hw⟩ := runLoop_log_witness rules dry fault fs.entries fs _ hmem
        have heq : item = e := List.inj_on_of_nodup_map hnd hit he hw.1
        have hfile : item.isFile = true := hw.2.1
        rw [heq, hef] at hfile
        exact Bool.false_ne_true hfile
      · intro hmem
        rw [hlog] at hmem
        obtain ⟨item, hit, hw⟩ := runLoop_log_witness rules dry fault fs.entries fs _ hmem
        have heq : item = e := List.inj_on_of_nodup_map hnd hit he hw.1
        have hfile : item.isFile = true := hw.2.1
        rw [heq, hef] at hfile
        exact Bool.false_ne_true hfile
    · intro d hmem
      rw [hlog] at hmem
      obtain ⟨item, hit, hw⟩ := runLoop_log_witness rules dry fault fs.entries fs _ hmem
      have heq : item = e := List.inj_on_of_nodup_map hnd hit he hw.1
      have hfile : item.isFile = true := hw.2.1
      rw [heq, hef] at hfile
      exact Bool.false_ne_true hfile
  · intro o hmem
    rw [hlog] at hmem
    obtain ⟨item, hit, hw⟩ := runLoop_log_witness rules dry fault fs.entries fs _ hmem
    exact List.mem_map.mpr ⟨item, hit, witnessed_name rules dry fault item o hw⟩

/-- C2 witness: a concrete un-aborted run in which the sub-directory `d`
is recorded as skipped-not-a-file. -/
theorem C2_witness :
    (((⟨[⟨("a.jpg"), true⟩, ⟨("d"), false⟩]⟩ : FS).entries.map Entry.name).Nodup) ∧
    ((organize_files (.dir ⟨[⟨("a.jpg"), true⟩, ⟨("d"), false⟩]⟩) [((".jpg"), ("Images"))]
        false (fun _ => none)).err = none) ∧
    Outcome.skippedNotAFile ("d") ∈
      (organize_files (.dir ⟨[⟨("a.jpg"), true⟩, ⟨("d"), false⟩]⟩) [((".jpg"), ("Images"))]
        false (fun _ => none)).log :=
  ⟨by decide, by decide,
    ((C2_non_file_skipped [((".jpg"), ("Images"))] false (fun _ => none)
          ⟨[⟨("a.jpg"), true⟩, ⟨("d"), false⟩]⟩ (by decide) (by decide)).1
        ⟨("d"), false⟩ (by decide) rfl).1⟩

/-- C3 (confirmed): a non-existent path raises the path-not-found error
and a plain file raises the not-a-directory error, in both cases with an
empty log and the path state untouched (no per-entry processing, no
mutation); and a run on a directory never raises either precondition
error. -/
theorem C3_preconditions (rules : List (String × String)) (dry : Bool)
    (fault : String → Option String) :
    organize_files .absent rules dry fault =
      ⟨[], some OrgError.fileNotFound, .absent⟩ ∧
    organize_files .file rules dry fault =
      ⟨[], some OrgError.notADirectory, .file⟩ ∧
    ∀ fs : FS, (organize_files (.dir fs) rules dry fault).err = none ∨
      ∃ n, (organize_files (.dir fs) rules dry fault).err = some (OrgError.fileExists n) := by
  refine ⟨rfl, rfl, ?_⟩
  intro fs
  exact runLoop_err_shape rules dry fault fs.entries fs

/-- C4 counterexample: three entries, the first a matching file whose
category name is taken by the regular file `Pics`.  Processing that first
matching entry fails with a destination collision raised by the
directory-creation call, which sits outside the per-item handler: no
failed outcome is recorded, the run aborts with the exception, and the
remaining entries are never processed — far from one outcome per entry. -/
theorem C4_counterexample :
    organize_files (.dir ⟨[⟨("b.jpg"), true⟩, ⟨("Pics"), true⟩, ⟨("c.jpg"), true⟩]⟩)
        [((".jpg"), ("Pics"))] false (fun _ => none) =
      ⟨[], some (.fileExists ("Pics")),
        .dir ⟨[⟨("b.jpg"), true⟩, ⟨("Pics"), true⟩, ⟨("c.jpg"), true⟩]⟩⟩ := by
  decide

/-- C4 (amended): failures raised by the move call itself are caught
locally — the entry is recorded as failed with the error detail and all
subsequent entries are still processed, the log being exactly one record
per entry in snapshot order, with no record at all for files whose
resolved category is falsy (no match, or the empty-string category,
which `if folder_name:` treats like no match) — provided the run is not
aborted by a directory-creation failure, which the per-item handler does
not cover. -/
theorem C4_move_failure_isolation (rules : List (String × String)) (dry : Bool)
    (fault : String → Option String) (fs : FS)
    (herr : (organize_files (.dir fs) rules dry fault).err = none) :
    (organize_files (.dir fs) rules dry fault).log =
      fs.entries.filterMap (outcomeFor rules dry fault) ∧
    ∀ e ∈ fs.entries, e.isFile = true → ∀ folder, get_file_folder e.name rules = some folder →
      folder ≠ ("") → dry = false → ∀ detail, fault e.name = some detail →
        Outcome.failed e.name detail ∈ (organize_files (.dir fs) rules dry fault).log := by
  have hlog : (organize_files (.dir fs) rules dry fault).log =
      (runLoop rules dry fault fs.entries fs).log := rfl
  have herr2 : (runLoop rules dry fault fs.entries fs).err = none := herr
  have hmain := runLoop_log_eq rules dry fault fs.entries fs herr2
  refine ⟨by rw [hlog, hmain], ?_⟩
  intro e he hfile folder hfolder hfe hdry detail hfault
  rw [hlog, hmain]
  refine List.mem_filterMap.mpr ⟨e, he, ?_⟩
  rw [hdry] at *
  simp [outcomeFor, truthyFolder, hfile, hfolder, hfe, hfault]

/-- C4 witness: the spec's three-file scenario — the second file's move is
forced to fail, its outcome is failed with the detail, and the first and
third are still moved, three outcomes in all. -/
theorem C4_witness :
    ((organize_files
        (.dir ⟨[⟨("a.jpg"), true⟩, ⟨("b.jpg"), true⟩, ⟨("c.jpg"), true⟩]⟩)
        [((".jpg"), ("Images"))] false
        (fun n => if n = ("b.jpg") then some ("locked") else none)).err = none) ∧
    (organize_files
        (.dir ⟨[⟨("a.jpg"), true⟩, ⟨("b.jpg"), true⟩, ⟨("c.jpg"), true⟩]⟩)
        [((".jpg"), ("Images"))] false
        (fun n => if n = ("b.jpg") then some ("locked") else none)).log =
      [Outcome.moved ("a.jpg") ("Images"), Outcome.failed ("b.jpg") ("locked"),
        Outcome.moved ("c.jpg") ("Images")] ∧
    Outcome.failed ("b.jpg") ("locked") ∈
      (organize_files
        (.dir ⟨[⟨("a.jpg"), true⟩, ⟨("b.jpg"), true⟩, ⟨("c.jpg"), true⟩]⟩)
        [((".jpg"), ("Images"))] false
        (fun n => if n = ("b.jpg") then some ("locked") else none)).log :=
  ⟨by decide, by decide,
    (C4_move_failure_isolation [((".jpg"), ("Images"))] false
        (fun n => if n = ("b.jpg") then some ("locked") else none)
        ⟨[⟨("a.jpg"), true⟩, ⟨("b.jpg"), true⟩, ⟨("c.jpg"), true⟩]⟩ (by decide)).2
      ⟨("b.jpg"), true⟩ (by decide) rfl ("Images") (by decide) (by decide) rfl
      ("locked") (by decide)⟩

/-- C5 counterexample: in the configuration `{A: [.x], B: [.x]}` the
extension `.x` is registered under category `A`, yet resolving `.x`
answers `B`, because the later registration silently overwrote the
earlier one — "registered under C implies resolve returns C" fails. -/
theorem C5_counterexample :
    ((("A"), [(".x")]) ∈ ([(("A"), [(".x")]), (("B"), [(".x")])] : RawConfig)) ∧
    resolve (load_rules (.ok [(("A"), [(".x")]), (("B"), [(".x")])])) (".x") = some ("B") ∧
    resolve (load_rules (.ok [(("A"), [(".x")]), (("B"), [(".x")])])) (".x") ≠ some ("A") := by
  refine ⟨by decide, by decide, by decide⟩

/-- C5 (amended): when C is the category of the *last* registration of an
extension E (after lower-casing) in the configuration's insertion order,
resolve answers C for every casing of E — extensions are lower-cased both
at table construction and at lookup. -/
theorem C5_resolve_case_insensitive (config : RawConfig) (E C : String)
    (h : lastRegCat config (lowerStr E) = some C) :
    ∀ E2 : String, lowerStr E2 = lowerStr E →
      resolve (load_rules (.ok config)) E2 = some C := by
  intro E2 h2
  show dictGet (invert_rules config) (lowerStr E2) = some C
  rw [h2, dictGet_invert_rules config (lowerStr E), h]

/-- C5 witness: `.JPG` listed once under `Images` resolves to `Images`
also when spelled `.jPg`. -/
theorem C5_witness :
    lastRegCat [(("Images"), [(".JPG")])] (lowerStr (".JPG")) = some ("Images") ∧
    lowerStr (".jPg") = lowerStr (".JPG") ∧
    resolve (load_rules (.ok [(("Images"), [(".JPG")])])) (".jPg") = some ("Images") :=
  ⟨by decide, by decide,
    C5_resolve_case_insensitive [(("Images"), [(".JPG")])] (".JPG") ("Images") (by decide)
      (".jPg") (by decide)⟩

/-- C6 counterexample: a run over the single no-match file `c.txt`
produces an empty log — the file is indeed left untouched, but no
skipped-no-match outcome (nor any outcome at all) is recorded for it:
the code's no-match branch logs nothing. -/
theorem C6_counterexample :
    organize_files (.dir ⟨[⟨("c.txt"), true⟩]⟩) [((".jpg"), ("Images"))] false
        (fun _ => none) =
      ⟨[], none, .dir ⟨[⟨("c.txt"), true⟩]⟩⟩ := by
  decide

/-- C6 (amended): resolving an extension that is not registered (after
lower-casing) answers the no-match sentinel `none`, and a regular file
bearing such an extension is left untouched in the directory — but,
contrary to the claim, *no* outcome is recorded for it: the run's log
never names it. -/
theorem C6_no_match_untouched (config : RawConfig) (ext : String)
    (hext : lowerStr ext ∉ (regs config).map Prod.fst) :
    resolve (load_rules (.ok config)) ext = none ∧
    ∀ (rules : List (String × String)) (dry : Bool) (fault : String → Option String) (fs : FS),
      (fs.entries.map Entry.name).Nodup →
      ∀ e ∈ fs.entries, e.isFile = true → get_file_folder e.name rules = none →
        e ∈ (organize_files (.dir fs) rules dry fault).postEntries ∧
        ∀ o ∈ (organize_files (.dir fs) rules dry fault).log, Outcome.name o ≠ e.name := by
  constructor
  · show dictGet (invert_rules config) (lowerStr ext) = none
    rw [dictGet_invert_rules, lastRegCat]
    have hfind : (regs config).reverse.find? (fun p => p.1 = lowerStr ext) = none := by
      rw [List.find?_eq_none]
      intro x hx
      simp only [decide_eq_true_eq]
      intro hx1
      exact hext (List.mem_map.mpr ⟨x, List.mem_reverse.mp hx, hx1⟩)
    rw [hfind]
    rfl
  · intro rules dry fault fs hnd e he hfile hnone
    constructor
    · show e ∈ (runLoop rules dry fault fs.entries fs).fs.entries
      refine runLoop_preserved rules dry fault fs.entries fs e he ?_
      intro item hit hif hname
      have heq : item = e := List.inj_on_of_nodup_map hnd hit he hname
      rw [heq]
      exact hnone
    · intro o hmem hname
      obtain ⟨item, hit, hw⟩ :=
        runLoop_log_witness rules dry fault fs.entries fs o hmem
      have hin : item.name = e.name := (witnessed_name rules dry fault item o hw).trans hname
      have heq : item = e := List.inj_on_of_nodup_map hnd hit he hin
      cases o with
      | moved n f =>
        have hsome : truthyFolder (get_file_folder n rules) = some f := hw.2.2.1
        have hn : e.name = n := hname ▸ rfl
        rw [← hn, hnone] at hsome
        simp [truthyFolder] at hsome
      | simulated n f =>
        have hsome : truthyFolder (get_file_folder n rules) = some f := hw.2.2.1
        have hn : e.name = n := hname ▸ rfl
        rw [← hn, hnone] at hsome
        simp [truthyFolder] at hsome
      | failed n d =>
        obtain ⟨f, hsome⟩ := hw.2.2.1
        have hn : e.name = n := hname ▸ rfl
        rw [← hn, hnone] at hsome
        simp [truthyFolder] at hsome
      | skippedNotAFile n =>
        have hif : item.isFile = false := hw.2
        rw [heq, hfile] at hif
        cases hif

/-- C6 witness: `.txt` is unregistered, resolves to none, and the
concrete file `c.txt` survives the run in place. -/
theorem C6_witness :
    (lowerStr (".txt") ∉ (regs [(("Images"), [(".jpg")])]).map Prod.fst) ∧
    resolve (load_rules (.ok [(("Images"), [(".jpg")])])) (".txt") = none ∧
    ⟨("c.txt"), true⟩ ∈ (organize_files (.dir ⟨[⟨("c.txt"), true⟩]⟩) [((".jpg"), ("Images"))]
        false (fun _ => none)).postEntries :=
  ⟨by decide,
    (C6_no_match_untouched [(("Images"), [(".jpg")])] (".txt") (by decide)).1,
    ((C6_no_match_untouched [(("Images"), [(".jpg")])] (".txt") (by decide)).2
        [((".jpg"), ("Images"))] false (fun _ => none) ⟨[⟨("c.txt"), true⟩]⟩ (by decide)
        ⟨("c.txt"), true⟩ (by decide) rfl (by decide)).1⟩

/-- C7 (confirmed): the rule table built from any configuration maps each
extension key at most once (its key list is duplicate-free), and lookup
answers the category of the last registration of the key in the
configuration's insertion order — last-write-wins, with no error
outcome expressible at all. -/
theorem C7_last_write_wins (config : RawConfig) (k : String) :
    ((load_rules (.ok config)).map Prod.fst).Nodup ∧
    dictGet (load_rules (.ok config)) k = lastRegCat config k :=
  ⟨nodup_keys_invert_rules config, dictGet_invert_rules config k⟩

/-- C8 (confirmed): with dryRun=false, a file the first run moved is no
longer among the directory's immediate entries, so an immediately
repeated run on the same directory and rule table records no moved
outcome for it. -/
theorem C8_second_run_no_moved (rules : List (String × String))
    (fault1 fault2 : String → Option String) (fs : FS) (n f : String)
    (h1 : Outcome.moved n f ∈ (organize_files (.dir fs) rules false fault1).log) :
    ∀ f2 : String, Outcome.moved n f2 ∉
      (organize_files ((organize_files (.dir fs) rules false fault1).post)
        rules false fault2).log := by
  intro f2 h2
  have hpost : (organize_files (.dir fs) rules false fault1).post =
      .dir (runLoop rules false fault1 fs.entries fs).fs := rfl
  rw [hpost] at h2
  obtain ⟨item, hit, hw⟩ :=
    runLoop_log_witness rules false fault2
      (runLoop rules false fault1 fs.entries fs).fs.entries
      (runLoop rules false fault1 fs.entries fs).fs (Outcome.moved n f2) h2
  have hgone : item.isFile = false :=
    runLoop_moved_no_file_left rules false fault1 fs.entries fs n f h1 item hit hw.1
  have hfile : item.isFile = true := hw.2.1
  rw [hgone] at hfile
  exact Bool.false_ne_true hfile

/-- C8 witness: `a.jpg` is moved by the first run and the second run
(whose listing holds only the `Images` directory) records no moved
outcome for it. -/
theorem C8_witness :
    Outcome.moved ("a.jpg") ("Images") ∈
      (organize_files (.dir ⟨[⟨("a.jpg"), true⟩]⟩) [((".jpg"), ("Images"))] false
        (fun _ => none)).log ∧
    Outcome.moved ("a.jpg") ("Images") ∉
      (organize_files
        ((organize_files (.dir ⟨[⟨("a.jpg"), true⟩]⟩) [((".jpg"), ("Images"))] false
          (fun _ => none)).post)
        [((".jpg"), ("Images"))] false (fun _ => none)).log :=
  ⟨by decide,
    C8_second_run_no_moved [((".jpg"), ("Images"))] (fun _ => none) (fun _ => none)
      ⟨[⟨("a.jpg"), true⟩]⟩ ("a.jpg") ("Images") (by decide) ("Images")⟩

/-- C9 (confirmed): a missing configuration file, malformed JSON and an
empty mapping all load as the empty rule table, and whenever the loaded
table is empty `main` halts without invoking the organizer — no run
result exists, so no directory entry is read, created or moved. -/
theorem C9_empty_rules_halt :
    load_rules .missing = [] ∧ load_rules .malformed = [] ∧ load_rules (.ok []) = [] ∧
    ∀ (cfg : LoadResult) (p : PathState) (dry : Bool) (fault : String → Option String),
      load_rules cfg = [] → main cfg p dry fault = none := by
  refine ⟨rfl, rfl, rfl, ?_⟩
  intro cfg p dry fault h
  simp [main, h]

/-- C9 witness: with the configuration file missing, `main` halts on a
concrete directory. -/
theorem C9_witness :
    load_rules .missing = [] ∧
    main .missing (.dir ⟨[⟨("a.jpg"), true⟩]⟩) false (fun _ => none) = none :=
  ⟨rfl, C9_empty_rules_halt.2.2.2 .missing (.dir ⟨[⟨("a.jpg"), true⟩]⟩) false
    (fun _ => none) rfl⟩

/-- C10 (confirmed): a name with no dot, and a dotfile whose only dot
leads, both have the empty suffix; classification of such a name looks up
the empty string in the rule table; and when the empty string is not
registered, no run ever records a moved outcome for that name. -/
theorem C10_empty_suffix_never_moved :
    (∀ name : String, ('.') ∉ name.data → suffix name = ("")) ∧
    (∀ tail : List Char, ('.') ∉ tail → suffix (String.mk (('.') :: tail)) = ("")) ∧
    (∀ (rules : List (String × String)) (name : String), suffix name = ("") →
      get_file_folder name rules = dictGet rules ("")) ∧
    (∀ (rules : List (String × String)) (name : String), suffix name = ("") →
      dictGet rules ("") = none →
      ∀ (fs : FS) (dry : Bool) (fault : String → Option String) (f : String),
        Outcome.moved name f ∉ (organize_files (.dir fs) rules dry fault).log) := by
  have hsuffix_empty : ∀ (rules : List (String × String)) (name : String),
      suffix name = ("") → get_file_folder name rules = dictGet rules ("") := by
    intro rules name h
    rw [get_file_folder, h]
    rfl
  refine ⟨?_, ?_, hsuffix_empty, ?_⟩
  · intro name h
    rw [suffix, rfindDot_eq_none name.data h]
  · intro tail h
    have hdata : (String.mk (('.') :: tail)).data = ('.') :: tail := rfl
    rw [suffix, hdata, rfindDot, rfindDot_eq_none tail h]
    simp
  · intro rules name hsuf hget fs dry fault f hmem
    obtain ⟨item, hit, hw⟩ :=
      runLoop_log_witness rules dry fault fs.entries fs (Outcome.moved name f) hmem
    have hsome : truthyFolder (get_file_folder name rules) = some f := hw.2.2.1
    rw [hsuffix_empty rules name hsuf, hget] at hsome
    simp [truthyFolder] at hsome

/-- C10 witness: `.gitignore` has empty suffix, looks up the empty
string, and is never moved by a run over a table with no empty-string
key. -/
theorem C10_witness :
    suffix (".gitignore") = ("") ∧
    dictGet [((".jpg"), ("Images"))] ("") = none ∧
    Outcome.moved (".gitignore") ("Images") ∉
      (organize_files (.dir ⟨[⟨(".gitignore"), true⟩]⟩) [((".jpg"), ("Images"))] false
        (fun _ => none)).log :=
  ⟨by decide, by decide,
    C10_empty_suffix_never_moved.2.2.2 [((".jpg"), ("Images"))] (".gitignore") (by decide)
      (by decide) ⟨[⟨(".gitignore"), true⟩]⟩ false (fun _ => none) ("Images")⟩

end Organizer
